import Mathlib

/-!
Verification development for the assemblyline-v4-service result/task layer.

The embedding follows `src/assemblyline_v4_service/common/result.py` and
`src/assemblyline_v4_service/common/task.py`.  Python dictionaries are
represented as association lists that keep insertion order (a key is
updated in place; a fresh key is appended at the end), Python `None` is
`Option.none`, exceptions are `Except` errors, and unbounded Python
integers are `Int`.

External collaborators (the classification library, the heuristic
manifest, the MITRE attack map, `os`/`shutil` and the hash utility) are
modelled as explicit parameters or small concrete models, as the spec
describes them in its interface section.
-/

namespace AL

/-- Python `dict` lookup on an insertion-ordered association list. -/
def dictGet {α : Type} (m : List (String × α)) (k : String) : Option α :=
  match m with
  | [] => none
  | (k', v) :: rest => if k' = k then some v else dictGet rest k

/-- Python `m.setdefault(k, 0); m[k] += v` on an integer-valued dict:
an existing key is updated in place, a fresh key is appended. -/
def dictIncr (m : List (String × Int)) (k : String) (v : Int) : List (String × Int) :=
  match m with
  | [] => [(k, v)]
  | (k', v') :: rest =>
    if k' = k then (k', v' + v) :: rest else (k', v') :: dictIncr rest k v

/-- One entry of the heuristic manifest (`HEUR_LIST[heur_id]`): base score,
default attack ids and per-signature score overrides. -/
structure HeurDefinition where
  score : Int
  attack_id : List String
  signature_score_map : List (String × Int)
deriving DecidableEq, Repr

/-- The static heuristic manifest `HEUR_LIST`, keyed by heuristic id. -/
abbrev Manifest : Type := Nat → Option HeurDefinition

/-- The static MITRE attack-technique catalogue `attack_map` (only
membership is consulted by the code). -/
abbrev AttackMap : Type := List String

/-- State of a `Heuristic` object after `__init__` and any mutations. -/
structure Heuristic where
  definition : HeurDefinition
  heur_id : Nat
  attack_ids : List String
  score : Int
  frequency : Int
  signatures : List (String × Int)
deriving DecidableEq, Repr

/-- The score contribution of the `for sig_name, freq in self.signatures.items()`
loop at the end of `Heuristic.__init__`: each signature contributes its
override from `signature_score_map` when present, otherwise the base score,
times its stored frequency. -/
def sigLoopScore (defn : HeurDefinition) (sigs : List (String × Int)) : Int :=
  (sigs.map (fun p =>
    (match dictGet defn.signature_score_map p.1 with
     | some o => o
     | none => defn.score) * p.2)).sum

/-- `Heuristic.__init__(heur_id, attack_id, signature, attack_ids, signatures, frequency)`.
Raises `InvalidHeuristicException` when `heur_id` is not in the manifest.
Python truthiness: an empty string or empty list/dict argument behaves
like an absent one. -/
def Heuristic.init (manifest : Manifest) (attack_map : AttackMap)
    (heur_id : Nat) (attack_id : Option String) (signature : Option String)
    (attack_ids0 : Option (List String)) (signatures0 : Option (List (String × Int)))
    (frequency : Int) : Except Unit Heuristic :=
  match manifest heur_id with
  | none => Except.error ()
  | some defn =>
    let attack_ids1 := (attack_ids0.getD [])
    let attack_ids2 :=
      match attack_id with
      | some a => if a = "" then attack_ids1 else attack_ids1 ++ [a]
      | none => attack_ids1
    let attack_ids3 :=
      if attack_ids2.isEmpty && !defn.attack_id.isEmpty
      then attack_ids2 ++ defn.attack_id else attack_ids2
    let valid_ids := attack_ids3.filter (fun a => a ∈ attack_map)
    let sigs1 := (signatures0.getD [])
    let sigs2 :=
      match signature with
      | some s => if s = "" then sigs1 else dictIncr sigs1 s 1
      | none => sigs1
    let base := if sigs2.isEmpty then defn.score * frequency else 0
    Except.ok
      { definition := defn
        heur_id := heur_id
        attack_ids := valid_ids
        score := base + sigLoopScore defn sigs2
        frequency := if sigs2.isEmpty then frequency else 0
        signatures := sigs2 }

/-- `Heuristic.add_attack_id(attack_id)`: ignored with a warning when the id
is not in the catalogue, appended only when not already present. -/
def Heuristic.add_attack_id (attack_map : AttackMap) (h : Heuristic)
    (attack_id : String) : Heuristic :=
  if attack_id ∉ attack_map then h
  else if attack_id ∈ h.attack_ids then h
  else { h with attack_ids := h.attack_ids ++ [attack_id] }

/-- `Heuristic.add_signature_id(signature, frequency)`: bumps the signature
count and adds the override (or base) score times `frequency`. -/
def Heuristic.add_signature_id (h : Heuristic) (signature : String)
    (frequency : Int) : Heuristic :=
  let sigs := dictIncr h.signatures signature frequency
  let delta :=
    match dictGet h.definition.signature_score_map signature with
    | some o => o * frequency
    | none => h.definition.score * frequency
  { h with signatures := sigs, score := h.score + delta }

/-- `Heuristic.increment_frequency(frequency)`. -/
def Heuristic.increment_frequency (h : Heuristic) (frequency : Int) : Heuristic :=
  { h with frequency := h.frequency + frequency
           score := h.score + h.definition.score * frequency }

/-- Model of a classification label from the external classification
library: a scheme identifier and a level within the scheme. -/
structure Classn where
  scheme : Nat
  level : Nat
deriving DecidableEq, Repr

/-- Model of `Classification.max_classification`: the maximum of two labels
of the same scheme; labels of different schemes raise `InvalidClassification`. -/
def maxClassification (a b : Classn) : Except Unit Classn :=
  if a.scheme = b.scheme then Except.ok ⟨a.scheme, max a.level b.level⟩
  else Except.error ()

/-- The scalar fields of a `ResultSection` object (children are kept
separately so the tree is an inductive type). -/
structure SectionData where
  finalized : Bool
  body : Option String
  classification : Classn
  body_format : Nat
  depth : Nat
  tags : List (String × List String)
  heuristic : Option Heuristic
  title_text : String
deriving DecidableEq, Repr

/-- A `ResultSection` with its ordered `subsections` list.  The Python
parent pointer is not stored: `finalize` threads the parent's
classification explicitly instead. -/
inductive RSection where
  | mk : SectionData → List RSection → RSection

/-- The scalar fields of a section node. -/
def RSection.data : RSection → SectionData
  | .mk d _ => d

/-- The `subsections` list of a section node. -/
def RSection.subsections : RSection → List RSection
  | .mk _ subs => subs

/-- `ResultSection.add_tag(tag_type, value)` acting on the `tags` dict:
the tag type's list is created on first use and the value is appended
only when not already present.  A `bytes` value is decoded to text
before this, so the model takes the decoded string. -/
def add_tag (tags : List (String × List String)) (tag_type : String)
    (value : String) : List (String × List String) :=
  match tags with
  | [] => [(tag_type, [value])]
  | (k, vs) :: rest =>
    if k = tag_type then (k, if value ∈ vs then vs else vs ++ [value]) :: rest
    else (k, vs) :: add_tag rest tag_type value

/-- `ResultSection.set_heuristic(heur_id, attack_id, signature)`: raises
`InvalidHeuristicException` when a heuristic is already set (a `Heuristic`
object is always truthy), otherwise constructs `Heuristic(heur_id,
attack_id=attack_id, signature=signature)` with the default frequency 1. -/
def set_heuristic (manifest : Manifest) (attack_map : AttackMap)
    (d : SectionData) (heur_id : Nat) (attack_id : Option String)
    (signature : Option String) : Except Unit SectionData :=
  match d.heuristic with
  | some _ => Except.error ()
  | none =>
    match Heuristic.init manifest attack_map heur_id attack_id signature none none 1 with
    | Except.error e => Except.error e
    | Except.ok h => Except.ok { d with heuristic := some h }

mutual

/-- `ResultSection.finalize(depth)`.  `pc` is the classification of the
parent when the parent is a `ResultSection`, and `none` when the parent
is a `Result` or absent.  Returns the updated node, the parent's updated
classification, and the `keep_me` flag.  A double finalize raises
`ResultAggregationException`; a classification-merge failure is caught
and turns into `keep_me = False` with the parent left unchanged.

The source keeps every child in `tmp_subs`: the loop tests
`subsection in self.subsections`, which is always true since nothing
removes children during the loop, and the child's returned `keep_me`
flag is discarded — so `finalizeChildren` retains each finalized child. -/
def finalizeSection (pc : Option Classn) (depth : Nat) :
    RSection → Except Unit (RSection × Option Classn × Bool)
  | .mk d subs =>
    if d.finalized then Except.error ()
    else
      match finalizeChildren d.classification (depth + 1) subs with
      | Except.error e => Except.error e
      | Except.ok (subs', selfClass) =>
        let d' := { d with finalized := true, depth := depth, classification := selfClass }
        match pc with
        | none => Except.ok (RSection.mk d' subs', none, true)
        | some p =>
          match maxClassification selfClass p with
          | Except.ok c => Except.ok (RSection.mk d' subs', some c, true)
          | Except.error _ => Except.ok (RSection.mk d' subs', some p, false)

/-- The `for subsection in self.subsections` loop of
`ResultSection.finalize`: finalizes each child in order, threading the
enclosing section's classification (which each child's own finalize
raises via the parent pointer). -/
def finalizeChildren (selfClass : Classn) (depth : Nat) :
    List RSection → Except Unit (List RSection × Classn)
  | [] => Except.ok ([], selfClass)
  | c :: rest =>
    match finalizeSection (some selfClass) depth c with
    | Except.error e => Except.error e
    | Except.ok (c', pc', _keep) =>
      match finalizeChildren (pc'.getD selfClass) depth rest with
      | Except.error e => Except.error e
      | Except.ok (rest', final) => Except.ok (c' :: rest', final)

end

/-- The dict built by `get_heuristic_primitives`. -/
structure HeurPrimitives where
  heur_id : Nat
  score : Int
  attack_ids : List String
  signatures : List (String × Int)
  frequency : Int
deriving DecidableEq, Repr

/-- `get_heuristic_primitives(heur)`: `None` maps to `None`. -/
def get_heuristic_primitives : Option Heuristic → Option HeurPrimitives
  | none => none
  | some h => some ⟨h.heur_id, h.score, h.attack_ids, h.signatures, h.frequency⟩

/-- One flattened section record as built by `Result._append_section`.
The external `unflatten` applied to `tags` is modelled as the identity
on the association-list representation. -/
structure FlatRecord where
  body : Option String
  classification : Classn
  body_format : Nat
  depth : Nat
  heuristic : Option HeurPrimitives
  tags : List (String × List String)
  title_text : String
deriving DecidableEq, Repr

/-- `Result._append_section(section)`: the record appended to
`_flattened_sections` for one node. -/
def appendSection (s : RSection) : FlatRecord :=
  { body := s.data.body
    classification := s.data.classification
    body_format := s.data.body_format
    depth := s.data.depth
    heuristic := get_heuristic_primitives s.data.heuristic
    tags := s.data.tags
    title_text := s.data.title_text }

mutual

/-- `Result._flatten_sections(section, root)`: returns the list of records
the call appends to `self._flattened_sections`, in order. -/
def flattenSections (s : RSection) (root : Bool) : List FlatRecord :=
  match s with
  | .mk d subs =>
    if 0 < subs.length then
      (if root then [appendSection (RSection.mk d subs)] else []) ++ flattenChildren subs
    else
      [appendSection (RSection.mk d subs)]

/-- The `for subsection in section.subsections` loop of
`Result._flatten_sections`: appends each child's record, then recurses
with `root=False` when the child itself has children. -/
def flattenChildren : List RSection → List FlatRecord
  | [] => []
  | c :: rest =>
    appendSection c ::
      ((match c with
        | .mk _ cs => if 0 < cs.length then flattenSections c false else [])
       ++ flattenChildren rest)

end

/-- The score-summing loop of `Result.finalize`: adds `heuristic['score']`
for every record whose heuristic dict is truthy (i.e. present). -/
def sumScores (records : List FlatRecord) : Int :=
  records.foldl
    (fun acc r => match r.heuristic with | some h => acc + h.score | none => acc) 0

/-- The first loop of `Result.finalize`: each top-level section's parent is
set to the `Result` object (so its own classification merge is skipped),
it is finalized at depth 0, and its `keep_me` flag is recorded so that
non-kept sections can be deleted afterwards. -/
def finalizeTop : List RSection → Except Unit (List (RSection × Bool))
  | [] => Except.ok []
  | s :: rest =>
    match finalizeSection none 0 s with
    | Except.error e => Except.error e
    | Except.ok (s', _, keep) =>
      match finalizeTop rest with
      | Except.error e => Except.error e
      | Except.ok rest' => Except.ok ((s', keep) :: rest')

/-- `Result.finalize()`: finalizes the top-level sections, deletes the ones
whose finalize returned `False`, flattens the kept ones, and sums the
heuristic scores.  Returns the aggregate score, the flattened records and
the kept top-level sections. -/
def Result.finalize (sections : List RSection) :
    Except Unit (Int × List FlatRecord × List RSection) :=
  match finalizeTop sections with
  | Except.error e => Except.error e
  | Except.ok pairs =>
    let kept := (pairs.filter (fun p => p.2)).map (fun p => p.1)
    let flat := (kept.map (fun s => flattenSections s true)).flatten
    Except.ok (sumScores flat, flat, kept)

mutual

/-- Modelled from the spec: the clean pre-order traversal the spec says the
flattening performs — each node contributes its record exactly once,
parent before children, siblings in list order.  Stated from the spec's
words for comparison against `flattenSections`. -/
def specPreorder (s : RSection) : List FlatRecord :=
  match s with
  | .mk d subs => appendSection (RSection.mk d subs) :: specPreorderList subs

/-- Modelled from the spec: pre-order traversal of a sibling list. -/
def specPreorderList : List RSection → List FlatRecord
  | [] => []
  | c :: rest => specPreorder c ++ specPreorderList rest

end

/-- A file-system model for the `os`/`shutil` operations `Task` uses:
regular files as a path-to-content map plus a list of directories.
A relative path (such as the bare `name` passed to `shutil.move`) is
just a path key resolved against the process working directory. -/
structure FS where
  files : List (String × String)
  dirs : List String
deriving DecidableEq, Repr

/-- Content of the regular file at a path, when present. -/
def fsGet (fs : FS) (p : String) : Option String :=
  (fs.files.find? (fun q => q.1 = p)).map Prod.snd

/-- `os.path.exists(p)`: true for an existing file or directory. -/
def osPathExists (fs : FS) (p : String) : Bool :=
  (fsGet fs p).isSome || decide (p ∈ fs.dirs)

/-- `os.path.join(a, b)` for a non-empty absolute-style first component. -/
def osPathJoin (a b : String) : String := a ++ "/" ++ b

/-- Helper for `osPathDirname`: the input is the reversed character list
of the path; everything up to and including the first slash is dropped. -/
def dropLastComponent : List Char → List Char
  | [] => []
  | c :: rest => if c = '/' then rest else dropLastComponent rest

/-- `os.path.dirname(p)` for paths with a non-root directory component:
the prefix before the last slash. -/
def osPathDirname (p : String) : String :=
  String.mk (dropLastComponent p.toList.reverse).reverse

/-- `os.makedirs(p)`: records the directory as existing. -/
def osMakedirs (fs : FS) (p : String) : FS :=
  { fs with dirs := fs.dirs ++ [p] }

/-- `shutil.move(src, dst)` on regular files: raises when `src` does not
exist, otherwise removes `src` and writes its content at `dst`. -/
def shutilMove (fs : FS) (src dst : String) : Except Unit FS :=
  match fsGet fs src with
  | none => Except.error ()
  | some content =>
    Except.ok { fs with
      files := ((fs.files.filter (fun q => q.1 ≠ src)).filter (fun q => q.1 ≠ dst))
               ++ [(dst, content)] }

/-- `get_sha256_for_file(p)`: hashes the content of the file at `p`;
the hash function itself is an external collaborator, passed in. -/
def get_sha256_for_file (hash : String → String) (fs : FS) (p : String) :
    Except Unit String :=
  match fsGet fs p with
  | none => Except.error ()
  | some content => Except.ok (hash content)

/-- One extracted/supplementary file record (`File(dict(...))`). -/
structure FileRec where
  name : String
  sha256 : String
  description : String
  classification : Option Classn
deriving DecidableEq, Repr

/-- The parts of `Task` state that `add_extracted`/`add_supplementary`
touch. -/
structure TaskSt where
  working_directory : String
  extracted : List FileRec
  supplementary : List FileRec
deriving DecidableEq, Repr

/-- `Task.add_extracted(path, name, description, classification)`, exactly
as written in the source: it joins `name` onto the working directory,
creates `dirname(path)` if missing, and — when the destination does not
already exist — calls `shutil.move(name, file_path)`, i.e. moves the file
at the relative path `name`, not the file at `path`; the recorded hash is
computed by re-reading the file at `path`. -/
def Task.add_extracted (hash : String → String) (fs : FS) (t : TaskSt)
    (path name description : String) (classification : Option Classn) :
    Except Unit (FS × TaskSt) :=
  let file_path := osPathJoin t.working_directory name
  let folder_path := osPathDirname path
  let fs1 := if osPathExists fs folder_path then fs else osMakedirs fs folder_path
  match (if osPathExists fs1 file_path then Except.ok fs1
         else shutilMove fs1 name file_path) with
  | Except.error e => Except.error e
  | Except.ok fs2 =>
    match get_sha256_for_file hash fs2 path with
    | Except.error e => Except.error e
    | Except.ok sha =>
      Except.ok (fs2,
        { t with extracted := t.extracted ++
            [{ name := name, sha256 := sha, description := description,
               classification := classification }] })

/-- `Task.add_supplementary(...)`: identical to `add_extracted` except the
record goes to the supplementary list. -/
def Task.add_supplementary (hash : String → String) (fs : FS) (t : TaskSt)
    (path name description : String) (classification : Option Classn) :
    Except Unit (FS × TaskSt) :=
  let file_path := osPathJoin t.working_directory name
  let folder_path := osPathDirname path
  let fs1 := if osPathExists fs folder_path then fs else osMakedirs fs folder_path
  match (if osPathExists fs1 file_path then Except.ok fs1
         else shutilMove fs1 name file_path) with
  | Except.error e => Except.error e
  | Except.ok fs2 =>
    match get_sha256_for_file hash fs2 path with
    | Except.error e => Except.error e
    | Except.ok sha =>
      Except.ok (fs2,
        { t with supplementary := t.supplementary ++
            [{ name := name, sha256 := sha, description := description,
               classification := classification }] })

/-! ## Theorems -/

/-- C4: for every `heur_id` present in the manifest, `Heuristic(heur_id)`
with no signature argument, no signatures mapping and `frequency=1` yields
a score equal to the manifest entry's base score; for a `heur_id` absent
from the manifest the constructor raises `InvalidHeuristicException`. -/
theorem heuristic_init_score_is_base_score (manifest : Manifest)
    (am : AttackMap) (hid : Nat) :
    (∀ defn, manifest hid = some defn →
      (Heuristic.init manifest am hid none none none none 1).map Heuristic.score
        = Except.ok defn.score) ∧
    (manifest hid = none →
      Heuristic.init manifest am hid none none none none 1 = Except.error ()) := by
  constructor
  · intro defn hm
    rw [Heuristic.init, hm]
    simp [Except.map, sigLoopScore]
  · intro hm
    rw [Heuristic.init, hm]

/-- Witness for C4 at a concrete manifest: heuristic 7 has base score 42
and heuristic 8 is absent. -/
theorem heuristic_init_score_is_base_score_witness :
    (Heuristic.init (fun i => if i = 7 then some ⟨42, [], []⟩ else none) []
        7 none none none none 1).map Heuristic.score = Except.ok 42 ∧
    Heuristic.init (fun i => if i = 7 then some ⟨42, [], []⟩ else none) []
        8 none none none none 1 = Except.error () :=
  ⟨(heuristic_init_score_is_base_score
      (fun i => if i = 7 then some ⟨42, [], []⟩ else none) [] 7).1 ⟨42, [], []⟩ rfl,
   (heuristic_init_score_is_base_score
      (fun i => if i = 7 then some ⟨42, [], []⟩ else none) [] 8).2 rfl⟩

/-- C5: a signature with an entry in `signature_score_map` contributes
`override * n`, not `base_score * n`, per `add_signature_id` call with
count `n`; a signature without an override contributes `base_score * n`;
and a single overridden signature supplied at construction contributes
its override once. -/
theorem signature_override_contribution (h : Heuristic) (s : String) (n : Int) :
    (∀ o, dictGet h.definition.signature_score_map s = some o →
      (h.add_signature_id s n).score = h.score + o * n) ∧
    (dictGet h.definition.signature_score_map s = none →
      (h.add_signature_id s n).score = h.score + h.definition.score * n) ∧
    (∀ (manifest : Manifest) (am : AttackMap) (hid : Nat) (defn : HeurDefinition)
        (f o : Int), manifest hid = some defn → s ≠ "" →
      dictGet defn.signature_score_map s = some o →
      (Heuristic.init manifest am hid none (some s) none none f).map Heuristic.score
        = Except.ok o) := by
  refine ⟨?_, ?_, ?_⟩
  · intro o ho
    simp [Heuristic.add_signature_id, ho]
  · intro ho
    simp [Heuristic.add_signature_id, ho]
  · intro manifest am hid defn f o hm hs ho
    rw [Heuristic.init, hm]
    simp [hs, dictIncr, sigLoopScore, ho, Except.map]

/-- Witness for C5: base score 10, override -5 on signature "ov", no
override on "plain". -/
theorem signature_override_contribution_witness :
    ((Heuristic.mk ⟨10, [], [("ov", -5)]⟩ 1 [] 10 1 []).add_signature_id "ov" 2).score
      = 10 + (-5) * 2 ∧
    ((Heuristic.mk ⟨10, [], [("ov", -5)]⟩ 1 [] 10 1 []).add_signature_id "plain" 2).score
      = 10 + 10 * 2 ∧
    (Heuristic.init (fun i => if i = 1 then some ⟨10, [], [("ov", -5)]⟩ else none)
        [] 1 none (some "ov") none none 9).map Heuristic.score = Except.ok (-5) :=
  ⟨(signature_override_contribution (Heuristic.mk ⟨10, [], [("ov", -5)]⟩ 1 [] 10 1 [])
      "ov" 2).1 (-5) rfl,
   (signature_override_contribution (Heuristic.mk ⟨10, [], [("ov", -5)]⟩ 1 [] 10 1 [])
      "plain" 2).2.1 rfl,
   (signature_override_contribution (Heuristic.mk ⟨10, [], [("ov", -5)]⟩ 1 [] 10 1 [])
      "ov" 0).2.2 (fun i => if i = 1 then some ⟨10, [], [("ov", -5)]⟩ else none)
      [] 1 ⟨10, [], [("ov", -5)]⟩ 9 (-5) rfl (by decide) rfl⟩

/-- C10: when a signature (or a non-empty signatures mapping) is supplied
to the constructor, the `frequency` argument is ignored: the stored
frequency counter is 0 and the score is exactly the per-signature
contributions (override when present, otherwise base score, times the
per-signature count), for every value of the frequency parameter. -/
theorem init_with_signature_ignores_frequency (manifest : Manifest)
    (am : AttackMap) (hid : Nat) (defn : HeurDefinition) (s : String)
    (f : Int) (sigs : List (String × Int)) :
    (manifest hid = some defn → s ≠ "" →
      (Heuristic.init manifest am hid none (some s) none none f).map
          (fun h => (h.frequency, h.signatures, h.score))
        = Except.ok (0, [(s, 1)],
            (match dictGet defn.signature_score_map s with
             | some o => o
             | none => defn.score))) ∧
    (manifest hid = some defn → sigs ≠ [] →
      (Heuristic.init manifest am hid none none none (some sigs) f).map
          (fun h => (h.frequency, h.signatures, h.score))
        = Except.ok (0, sigs, sigLoopScore defn sigs)) := by
  constructor
  · intro hm hs
    rw [Heuristic.init, hm]
    cases ho : dictGet defn.signature_score_map s <;>
      simp [hs, dictIncr, sigLoopScore, ho, Except.map]
  · intro hm hsigs
    rw [Heuristic.init, hm]
    simp [hsigs, Except.map]

/-- Witness for C10: frequency argument 9 is ignored in both forms. -/
theorem init_with_signature_ignores_frequency_witness :
    (Heuristic.init (fun i => if i = 1 then some ⟨10, [], [("ov", -5)]⟩ else none)
        [] 1 none (some "sig") none none 9).map
        (fun h => (h.frequency, h.signatures, h.score))
      = Except.ok (0, [("sig", 1)], 10) ∧
    (Heuristic.init (fun i => if i = 1 then some ⟨10, [], [("ov", -5)]⟩ else none)
        [] 1 none none none (some [("a", 2), ("ov", 3)]) 9).map
        (fun h => (h.frequency, h.signatures, h.score))
      = Except.ok (0, [("a", 2), ("ov", 3)],
          sigLoopScore ⟨10, [], [("ov", -5)]⟩ [("a", 2), ("ov", 3)]) :=
  ⟨(init_with_signature_ignores_frequency
      (fun i => if i = 1 then some ⟨10, [], [("ov", -5)]⟩ else none) [] 1
      ⟨10, [], [("ov", -5)]⟩ "sig" 9 []).1 rfl (by decide),
   (init_with_signature_ignores_frequency
      (fun i => if i = 1 then some ⟨10, [], [("ov", -5)]⟩ else none) [] 1
      ⟨10, [], [("ov", -5)]⟩ "sig" 9 [("a", 2), ("ov", 3)]).2 rfl (by decide)⟩

/-- A heuristic whose manifest entry carries a negative signature score
override: reachable via `Heuristic(1)` under `negOvManifest`. -/
def negOvHeur : Heuristic := ⟨⟨10, [], [("ov", -5)]⟩, 1, [], 10, 1, []⟩

/-- The manifest that justifies `negOvHeur`. -/
def negOvManifest : Manifest :=
  fun i => if i = 1 then some ⟨10, [], [("ov", -5)]⟩ else none

/-- C6 counterexample: the score is not monotone — on a heuristic obtained
from the constructor, `add_signature_id` of a signature whose manifest
override is negative strictly decreases the score (10 to 5). -/
theorem add_signature_id_can_decrease_score :
    Heuristic.init negOvManifest [] 1 none none none none 1 = Except.ok negOvHeur ∧
    (negOvHeur.add_signature_id "ov" 1).score < negOvHeur.score := by
  constructor
  · rfl
  · decide

/-- C6 amended: each call to `add_signature_id` whose applicable
per-occurrence score (the manifest override when present, otherwise the
base score) is nonnegative and whose frequency argument is nonnegative,
and each call to `increment_frequency` with nonnegative frequency on a
heuristic with nonnegative base score, never decreases the score. -/
theorem score_monotone_nonneg (h : Heuristic) (s : String) (n : Int) :
    (0 ≤ n →
      0 ≤ (match dictGet h.definition.signature_score_map s with
           | some o => o
           | none => h.definition.score) →
      h.score ≤ (h.add_signature_id s n).score) ∧
    (0 ≤ n → 0 ≤ h.definition.score →
      h.score ≤ (h.increment_frequency n).score) := by
  constructor
  · intro hn hcoeff
    cases ho : dictGet h.definition.signature_score_map s with
    | none =>
      rw [ho] at hcoeff
      simp only [Heuristic.add_signature_id, ho]
      have : 0 ≤ h.definition.score * n := mul_nonneg hcoeff hn
      omega
    | some o =>
      rw [ho] at hcoeff
      simp only [Heuristic.add_signature_id, ho]
      have : 0 ≤ o * n := mul_nonneg hcoeff hn
      omega
  · intro hn hbase
    simp only [Heuristic.increment_frequency]
    have : 0 ≤ h.definition.score * n := mul_nonneg hbase hn
    omega

/-- Witness for the amended C6 on a nonnegative heuristic. -/
theorem score_monotone_nonneg_witness :
    (Heuristic.mk ⟨10, [], [("ov", 4)]⟩ 1 [] 10 1 []).score
      ≤ ((Heuristic.mk ⟨10, [], [("ov", 4)]⟩ 1 [] 10 1 []).add_signature_id "ov" 2).score ∧
    (Heuristic.mk ⟨10, [], [("ov", 4)]⟩ 1 [] 10 1 []).score
      ≤ ((Heuristic.mk ⟨10, [], [("ov", 4)]⟩ 1 [] 10 1 []).increment_frequency 3).score :=
  ⟨(score_monotone_nonneg (Heuristic.mk ⟨10, [], [("ov", 4)]⟩ 1 [] 10 1 []) "ov" 2).1
      (by decide) (by decide),
   (score_monotone_nonneg (Heuristic.mk ⟨10, [], [("ov", 4)]⟩ 1 [] 10 1 []) "ov" 3).2
      (by decide) (by decide)⟩

/-- `add_tag` is idempotent on the tags dict. -/
theorem addTag_idem (tags : List (String × List String)) (k v : String) :
    add_tag (add_tag tags k v) k v = add_tag tags k v := by
  induction tags with
  | nil =>
    simp [add_tag]
  | cons p rest ih =>
    obtain ⟨k', vs⟩ := p
    by_cases hk : k' = k
    · subst hk
      by_cases hv : v ∈ vs <;> simp [add_tag, hv]
    · simp [add_tag, hk, ih]

/-- `add_tag` creates the tag type on first use, appending it at the end
of the dict with a singleton value list. -/
theorem addTag_new_key (tags : List (String × List String)) (k v : String)
    (h : dictGet tags k = none) : add_tag tags k v = tags ++ [(k, [v])] := by
  induction tags with
  | nil =>
    simp [add_tag]
  | cons p rest ih =>
    obtain ⟨k', vs⟩ := p
    by_cases hk : k' = k
    · subst hk
      simp [dictGet] at h
    · rw [dictGet, if_neg hk] at h
      simp [add_tag, hk, ih h]

/-- `add_tag` on an existing tag type performs a deduplicated, order
preserving insertion into that type's value list. -/
theorem addTag_existing_key (tags : List (String × List String)) (k v : String)
    (vs : List String) (h : dictGet tags k = some vs) :
    dictGet (add_tag tags k v) k = some (if v ∈ vs then vs else vs ++ [v]) := by
  induction tags with
  | nil =>
    simp [dictGet] at h
  | cons p rest ih =>
    obtain ⟨k', vs'⟩ := p
    by_cases hk : k' = k
    · subst hk
      rw [dictGet, if_pos rfl] at h
      obtain rfl : vs' = vs := by simpa using h
      simp [add_tag, dictGet]
    · rw [dictGet, if_neg hk] at h
      rw [add_tag, if_neg hk, dictGet, if_neg hk]
      exact ih h

/-- C9: `add_tag` is idempotent (inserting the same pair twice equals
inserting it once), an absent tag type is created at first use, an
existing type's list receives the value only when not already present
with order preserved, and in particular two `add_tag('ip','1.2.3.4')`
calls leave exactly one value under key `'ip'`. -/
theorem add_tag_idempotent_dedup :
    (∀ (tags : List (String × List String)) (k v : String),
      add_tag (add_tag tags k v) k v = add_tag tags k v) ∧
    (∀ (tags : List (String × List String)) (k v : String),
      dictGet tags k = none → add_tag tags k v = tags ++ [(k, [v])]) ∧
    (∀ (tags : List (String × List String)) (k v : String) (vs : List String),
      dictGet tags k = some vs →
      dictGet (add_tag tags k v) k = some (if v ∈ vs then vs else vs ++ [v])) ∧
    dictGet (add_tag (add_tag [] "ip" "1.2.3.4") "ip" "1.2.3.4") "ip"
      = some ["1.2.3.4"] :=
  ⟨addTag_idem, addTag_new_key, addTag_existing_key, by decide⟩

/-- Witness for C9 at concrete inputs. -/
theorem add_tag_idempotent_dedup_witness :
    add_tag (add_tag [] "ip" "1.2.3.4") "ip" "1.2.3.4" = add_tag [] "ip" "1.2.3.4" ∧
    add_tag [("x", ["y"])] "ip" "1.2.3.4" = [("x", ["y"]), ("ip", ["1.2.3.4"])] ∧
    dictGet (add_tag [("ip", ["1.2.3.4"])] "ip" "1.2.3.4") "ip" = some ["1.2.3.4"] :=
  ⟨add_tag_idempotent_dedup.1 [] "ip" "1.2.3.4",
   add_tag_idempotent_dedup.2.1 [("x", ["y"])] "ip" "1.2.3.4" (by decide),
   by
    have h := add_tag_idempotent_dedup.2.2.1 [("ip", ["1.2.3.4"])] "ip" "1.2.3.4"
      ["1.2.3.4"] (by decide)
    simpa using h⟩

/-- C7: `set_heuristic` raises `InvalidHeuristicException` whenever a
heuristic is already set on the section, so after one successful
`set_heuristic` every further call fails — at most one heuristic per
section across repeated calls. -/
theorem set_heuristic_twice_fails (manifest : Manifest) (am : AttackMap)
    (d : SectionData) (hid hid2 : Nat) (a a2 sg sg2 : Option String) :
    (∀ h, d.heuristic = some h →
      set_heuristic manifest am d hid a sg = Except.error ()) ∧
    (∀ d', set_heuristic manifest am d hid a sg = Except.ok d' →
      set_heuristic manifest am d' hid2 a2 sg2 = Except.error ()) := by
  constructor
  · intro h hh
    rw [set_heuristic, hh]
  · intro d' hok
    rw [set_heuristic] at hok
    cases hd : d.heuristic with
    | some h =>
      rw [hd] at hok
      exact absurd hok (by simp)
    | none =>
      rw [hd] at hok
      cases hi : Heuristic.init manifest am hid a sg none none 1 with
      | error e =>
        rw [hi] at hok
        exact absurd hok (by simp)
      | ok h =>
        rw [hi] at hok
        have hd' : d' = { d with heuristic := some h } := by
          cases hok
          rfl
        rw [set_heuristic, hd']

/-- A fresh section without a heuristic. -/
def secNoHeur : SectionData :=
  { finalized := false, body := none, classification := ⟨0, 0⟩, body_format := 0,
    depth := 0, tags := [], heuristic := none, title_text := "t" }

/-- `secNoHeur` after one successful `set_heuristic(1)` under
`negOvManifest`. -/
def secWithHeur : SectionData :=
  { secNoHeur with heuristic := some negOvHeur }

/-- Witness for C7: an empty section accepts one heuristic and the second
call fails. -/
theorem set_heuristic_twice_fails_witness :
    set_heuristic negOvManifest [] secNoHeur 1 none none = Except.ok secWithHeur ∧
    set_heuristic negOvManifest [] secWithHeur 1 none none = Except.error () :=
  ⟨rfl,
   (set_heuristic_twice_fails negOvManifest [] secNoHeur 1 1
      none none none none).2 secWithHeur rfl⟩

/-- A successful `finalize` always leaves the node's `_finalized` flag set. -/
theorem finalizeSection_ok_finalized (pc : Option Classn) (depth : Nat)
    (s s' : RSection) (c : Option Classn) (b : Bool)
    (h : finalizeSection pc depth s = Except.ok (s', c, b)) :
    s'.data.finalized = true := by
  cases s with
  | mk d subs =>
    rw [finalizeSection] at h
    split at h
    · simp at h
    · split at h
      · simp at h
      · split at h
        · simp only [Except.ok.injEq, Prod.mk.injEq] at h
          obtain ⟨h1, -, -⟩ := h
          subst h1
          simp [RSection.data]
        · split at h
          · simp only [Except.ok.injEq, Prod.mk.injEq] at h
            obtain ⟨h1, -, -⟩ := h
            subst h1
            simp [RSection.data]
          · simp only [Except.ok.injEq, Prod.mk.injEq] at h
            obtain ⟨h1, -, -⟩ := h
            subst h1
            simp [RSection.data]

/-- C8: after a completed `finalize`, any second `finalize` on the
resulting section raises the `ResultAggregationException` double-finalize
error, whatever the depth or parent of the second call. -/
theorem finalize_twice_fails (pc pc2 : Option Classn) (depth depth2 : Nat)
    (s s' : RSection) (c : Option Classn) (b : Bool)
    (h : finalizeSection pc depth s = Except.ok (s', c, b)) :
    finalizeSection pc2 depth2 s' = Except.error () := by
  have hf := finalizeSection_ok_finalized pc depth s s' c b h
  cases s' with
  | mk d subs =>
    simp only [RSection.data] at hf
    rw [finalizeSection, if_pos hf]

/-- Witness for C8: a leaf section finalizes once and the second call
fails. -/
theorem finalize_twice_fails_witness :
    finalizeSection none 0 (RSection.mk secNoHeur [])
      = Except.ok (RSection.mk { secNoHeur with finalized := true } [], none, true) ∧
    finalizeSection none 0 (RSection.mk { secNoHeur with finalized := true } [])
      = Except.error () :=
  ⟨rfl,
   finalize_twice_fails none none 0 0 (RSection.mk secNoHeur [])
     (RSection.mk { secNoHeur with finalized := true } []) none true rfl⟩

/-- The child loop of `_flatten_sections` emits exactly the pre-order
records of the sibling list. -/
theorem flattenChildren_eq_spec : ∀ (l : List RSection),
    flattenChildren l = specPreorderList l
  | [] => by
    rw [flattenChildren, specPreorderList]
  | (RSection.mk d cs) :: rest => by
    rw [flattenChildren, specPreorderList, specPreorder]
    cases cs with
    | nil =>
      rw [flattenChildren_eq_spec rest]
      simp [specPreorderList]
    | cons c2 cs2 =>
      rw [flattenSections]
      rw [flattenChildren_eq_spec (c2 :: cs2), flattenChildren_eq_spec rest]
      simp

/-- `_flatten_sections(section, root=True)` is the pre-order traversal:
each node contributes exactly one record, parent before children,
siblings in list order. -/
theorem flattenSections_eq_spec (s : RSection) :
    flattenSections s true = specPreorder s := by
  cases s with
  | mk d subs =>
    rw [flattenSections, specPreorder]
    cases subs with
    | nil =>
      simp [specPreorderList]
    | cons c rest =>
      rw [flattenChildren_eq_spec (c :: rest)]
      simp

/-- `Result.finalize` flattens the retained top-level sections in
pre-order and the aggregate is the heuristic-score sum of the flattened
records. -/
theorem result_finalize_flat_preorder (sections : List RSection) (score : Int)
    (flat : List FlatRecord) (kept : List RSection)
    (h : Result.finalize sections = Except.ok (score, flat, kept)) :
    flat = (kept.map specPreorder).flatten ∧ score = sumScores flat := by
  rw [Result.finalize] at h
  cases hft : finalizeTop sections with
  | error e =>
    rw [hft] at h
    simp at h
  | ok pairs =>
    rw [hft] at h
    simp only [Except.ok.injEq, Prod.mk.injEq] at h
    obtain ⟨h1, h2, h3⟩ := h
    constructor
    · rw [← h2, ← h3]
      have hmap := List.map_congr_left
        (fun (a : RSection) (_ : a ∈ (pairs.filter (fun p => p.2)).map (fun p => p.1)) =>
          flattenSections_eq_spec a)
      rw [hmap]
    · rw [← h1, ← h2]

/-- The default classification label used by the concrete examples. -/
def c00 : Classn := ⟨0, 0⟩

/-- A heuristic as built by `Heuristic(hid)` under a manifest whose entry
`hid` has base score `sc` (score `sc`, frequency 1, no signatures). -/
def heurOf (hid : Nat) (sc : Int) : Heuristic := ⟨⟨sc, [], []⟩, hid, [], sc, 1, []⟩

/-- A fresh (unfinalized) section with the given title, classification,
optional heuristic and subsections. -/
def mkSec (t : String) (cl : Classn) (h : Option Heuristic)
    (subs : List RSection) : RSection :=
  RSection.mk
    { finalized := false, body := none, classification := cl, body_format := 0,
      depth := 0, tags := [], heuristic := h, title_text := t } subs

/-- A finalized section node with its assigned depth. -/
def mkSecF (t : String) (cl : Classn) (d : Nat) (h : Option Heuristic)
    (subs : List RSection) : RSection :=
  RSection.mk
    { finalized := true, body := none, classification := cl, body_format := 0,
      depth := d, tags := [], heuristic := h, title_text := t } subs

/-- The flattened record of a section with the given title,
classification, depth and optional heuristic. -/
def recOf (t : String) (cl : Classn) (d : Nat) (h : Option Heuristic) : FlatRecord :=
  { body := none, classification := cl, body_format := 0, depth := d,
    heuristic := get_heuristic_primitives h, tags := [], title_text := t }

/-- The spec's worked flattening example: root (heuristic 10) with
child1 (heuristic 5) and child2 (no heuristic, one grandchild with
heuristic 3). -/
def exampleTree : RSection :=
  mkSec "root" c00 (some (heurOf 1 10))
    [mkSec "child1" c00 (some (heurOf 2 5)) [],
     mkSec "child2" c00 none [mkSec "grandchild" c00 (some (heurOf 3 3)) []]]

/-- `exampleTree` after `Result.finalize`. -/
def exampleTreeFin : RSection :=
  mkSecF "root" c00 0 (some (heurOf 1 10))
    [mkSecF "child1" c00 1 (some (heurOf 2 5)) [],
     mkSecF "child2" c00 1 none [mkSecF "grandchild" c00 2 (some (heurOf 3 3)) []]]

/-- The flattened records of `exampleTree`, in pre-order. -/
def exampleFlat : List FlatRecord :=
  [recOf "root" c00 0 (some (heurOf 1 10)),
   recOf "child1" c00 1 (some (heurOf 2 5)),
   recOf "child2" c00 1 none,
   recOf "grandchild" c00 2 (some (heurOf 3 3))]

/-- C3: `_flatten_sections` on the recursion root is exactly the pre-order
traversal (each retained node contributes one record, parent before
children, siblings in order); `Result.finalize` flattens every kept
top-level section that way and sums the records' heuristic scores; and on
the spec's worked tree the order is [root, child1, child2, grandchild]
with aggregate score 18. -/
theorem flatten_is_preorder :
    (∀ s : RSection, flattenSections s true = specPreorder s) ∧
    (∀ (sections : List RSection) (score : Int) (flat : List FlatRecord)
        (kept : List RSection),
      Result.finalize sections = Except.ok (score, flat, kept) →
      flat = (kept.map specPreorder).flatten ∧ score = sumScores flat) ∧
    Result.finalize [exampleTree] = Except.ok (18, exampleFlat, [exampleTreeFin]) :=
  ⟨flattenSections_eq_spec, result_finalize_flat_preorder, by rfl⟩

/-- Witness for C3 at the worked example. -/
theorem flatten_is_preorder_witness :
    flattenSections exampleTree true = specPreorder exampleTree ∧
    (exampleFlat = ([exampleTreeFin].map specPreorder).flatten ∧
      (18 : Int) = sumScores exampleFlat) :=
  ⟨flatten_is_preorder.1 exampleTree,
   flatten_is_preorder.2.1 [exampleTree] 18 exampleFlat [exampleTreeFin] rfl⟩

/-- A root section whose second child carries a classification from an
incompatible scheme, so that child's finalize fails the classification
merge and returns `keep_me = False`. -/
def mixedTree : RSection :=
  mkSec "root" c00 (some (heurOf 1 10))
    [mkSec "child1" ⟨0, 1⟩ (some (heurOf 2 5)) [],
     mkSec "child2" ⟨1, 0⟩ (some (heurOf 3 7)) []]

/-- `mixedTree` as `Result.finalize` actually leaves it: both children are
still attached. -/
def mixedTreeFin : RSection :=
  mkSecF "root" ⟨0, 1⟩ 0 (some (heurOf 1 10))
    [mkSecF "child1" ⟨0, 1⟩ 1 (some (heurOf 2 5)) [],
     mkSecF "child2" ⟨1, 0⟩ 1 (some (heurOf 3 7)) []]

/-- C1 exhibit: the failing child's own finalize does signal
`keep_me = False` (first conjunct), but `ResultSection.finalize` ignores
the returned flag — the loop's `subsection in self.subsections` test is
always true — so the finalized result still retains both children: the
flattened output has three records including child2 and the aggregate
score 22 still counts child2's heuristic score 7, where the claim expects
one retained child and score 15. -/
theorem finalize_keeps_merge_failed_child :
    finalizeSection (some c00) 1 (mkSec "child2" ⟨1, 0⟩ (some (heurOf 3 7)) [])
      = Except.ok (mkSecF "child2" ⟨1, 0⟩ 1 (some (heurOf 3 7)) [], some c00, false) ∧
    Result.finalize [mixedTree]
      = Except.ok (22,
          [recOf "root" ⟨0, 1⟩ 0 (some (heurOf 1 10)),
           recOf "child1" ⟨0, 1⟩ 1 (some (heurOf 2 5)),
           recOf "child2" ⟨1, 0⟩ 1 (some (heurOf 3 7))],
          [mixedTreeFin]) :=
  ⟨rfl, rfl⟩

/-- The file system for the `add_extracted` exhibit: the file to extract
sits at `/tmp/dir/sample.bin`; nothing named `sample.bin` exists relative
to the process working directory. -/
def fsExtract : FS :=
  { files := [("/tmp/dir/sample.bin", "CONTENT")], dirs := ["/tmp/dir", "/wd"] }

/-- Task state with working directory `/wd` and empty file lists. -/
def taskExtract : TaskSt := { working_directory := "/wd", extracted := [], supplementary := [] }

/-- C2 exhibit: `add_extracted` (and `add_supplementary`) pass `name`, not
`path`, to `shutil.move`, so with the source file present at `path` the
call raises file-not-found instead of relocating it and appending a
record (first two conjuncts); the file at `path` does exist (third), and
moving from `path` as the claim describes would have succeeded (fourth). -/
theorem add_extracted_moves_name_not_path :
    Task.add_extracted (fun c => c) fsExtract taskExtract
        "/tmp/dir/sample.bin" "sample.bin" "desc" none = Except.error () ∧
    Task.add_supplementary (fun c => c) fsExtract taskExtract
        "/tmp/dir/sample.bin" "sample.bin" "desc" none = Except.error () ∧
    fsGet fsExtract "/tmp/dir/sample.bin" = some "CONTENT" ∧
    shutilMove fsExtract "/tmp/dir/sample.bin" "/wd/sample.bin"
      = Except.ok { files := [("/wd/sample.bin", "CONTENT")],
                    dirs := ["/tmp/dir", "/wd"] } :=
  ⟨rfl, rfl, rfl, rfl⟩

end AL
